import Mathlib

/-!
Verification of the Shot Sheet Maker script (src/ssm.py).

The script exports per-shot thumbnails and metadata from selected Flame
sequences and assembles them into xlsx shot sheets.  The definitions below
are a shallow embedding of the script: host sequence/segment objects become
structures, the xlsxwriter calls become an explicit list of worksheet
operations, the xlsx post-patch becomes a function on an archive modelled as
a list of named members, and the UI-driven control flow of
create_shot_sheets becomes an event trace.
-/

namespace SSM

/-! ## Host data model

A segment carries the attributes that get_shots reads.  The script reads
Flame attribute values through str(...)[1:-1], which strips the quotes of
the host repr; fields below hold the already-stripped strings.  record_in
is additionally used arithmetically (in/out marks), so it is carried as a
frame number alongside its display string. -/

structure Segment where
  segType : String
  name : String
  shot_name : String
  source_name : String
  file_path : String
  source_in : String
  source_out : String
  record_in : Int
  record_in_tc : String
  record_out_tc : String
  record_in_frame : String
  record_out_frame : String
  record_duration : String
  record_duration_frame : String
  source_duration : String
  source_duration_frame : String
  comment : String
deriving DecidableEq

/-- A sequence: its name (quote-stripped), frame size, the transient in/out
marks, and the segments of its single version/track
(sequence.versions[0].tracks[0].segments). -/
structure Sequence where
  name : String
  height : Nat
  width : Nat
  in_mark : Option Int
  out_mark : Option Int
  segments : List Segment
deriving DecidableEq

/-! ## Python string ordering

Python sorts strings ascending by code point.  String.le in Lean does not
reduce in the kernel, so the comparison is spelled out on the character
lists (UTF-8 byte order and code-point order agree, so this is the same
order). -/

def charListLe : List Char → List Char → Bool
  | [], _ => true
  | _ :: _, [] => false
  | a :: as, b :: bs =>
    if a.toNat < b.toNat then true
    else if b.toNat < a.toNat then false
    else charListLe as bs

def strLe (a b : String) : Bool :=
  charListLe a.data b.data

/-- Propositional form of the Python string order used by list.sort(). -/
def strLeR : String → String → Prop :=
  fun a b => strLe a b = true

instance : DecidableRel strLeR :=
  fun a b => instDecidableEqBool (strLe a b) true

instance : IsTotal String strLeR :=
  ⟨fun a b => by
    show charListLe a.data b.data = true ∨ charListLe b.data a.data = true
    generalize a.data = as
    generalize b.data = bs
    induction as generalizing bs with
    | nil => left; rfl
    | cons x xs ih =>
      cases bs with
      | nil => right; rfl
      | cons y ys =>
        by_cases hxy : x.toNat < y.toNat
        · left; simp [charListLe, hxy]
        · by_cases hyx : y.toNat < x.toNat
          · right; simp [charListLe, hyx]
          · rcases ih ys with h | h
            · left; simp [charListLe, hxy, hyx, h]
            · right; simp [charListLe, hxy, hyx, h]⟩

instance : IsTrans String strLeR :=
  ⟨fun a b c hab hbc => by
    show charListLe a.data c.data = true
    replace hab : charListLe a.data b.data = true := hab
    replace hbc : charListLe b.data c.data = true := hbc
    generalize a.data = as at hab ⊢
    generalize b.data = bs at hab hbc
    generalize c.data = cs at hbc ⊢
    induction as generalizing bs cs with
    | nil => rfl
    | cons x xs ih =>
      cases bs with
      | nil => simp [charListLe] at hab
      | cons y ys =>
        cases cs with
        | nil => simp [charListLe] at hbc
        | cons z zs =>
          by_cases hxy : x.toNat < y.toNat
          · by_cases hyz : y.toNat < z.toNat
            · simp [charListLe, lt_trans hxy hyz]
            · by_cases hzy : z.toNat < y.toNat
              · simp [charListLe, hyz, hzy] at hbc
              · have hyz' : y.toNat = z.toNat :=
                  le_antisymm (not_lt.mp hzy) (not_lt.mp hyz)
                simp [charListLe, hyz' ▸ hxy]
          · by_cases hyx : y.toNat < x.toNat
            · simp [charListLe, hxy, hyx] at hab
            · simp [charListLe, hxy, hyx] at hab
              by_cases hyz : y.toNat < z.toNat
              · have hxy' : x.toNat = y.toNat :=
                  le_antisymm (not_lt.mp hyx) (not_lt.mp hxy)
                simp [charListLe, hxy' ▸ hyz]
              · by_cases hzy : z.toNat < y.toNat
                · simp [charListLe, hyz, hzy] at hbc
                · simp [charListLe, hyz, hzy] at hbc
                  have hxz : ¬ x.toNat < z.toNat := by omega
                  have hzx : ¬ z.toNat < x.toNat := by omega
                  simp [charListLe, hxz, hzx, ih ys hab zs hbc]⟩

/-! ## get_shots: clip info and the shot dictionary -/

/-- The clip_info_list built for one segment in get_shots, entry for entry
in the order of the source (index 11 is Shot Length, index 12 is Source
Length which collapses to Infinite for infinite source durations). -/
def clipInfoList (sn : String) (seg : Segment) : List String :=
  ["Shot Name: " ++ sn,
   "Source Name: " ++ seg.source_name,
   "Source Path: " ++ seg.file_path,
   "Source TC: " ++ seg.source_in ++ " - " ++ seg.source_out,
   "Source TC In: " ++ seg.source_in,
   "Source TC Out: " ++ seg.source_out,
   "Record TC: " ++ seg.record_in_tc ++ " - " ++ seg.record_out_tc,
   "Record TC In: " ++ seg.record_in_tc,
   "Record TC Out: " ++ seg.record_out_tc,
   "Shot Frame In: " ++ seg.record_in_frame,
   "Shot Frame Out: " ++ seg.record_out_frame,
   "Shot Length: " ++ seg.record_duration ++ " - " ++ seg.record_duration_frame ++ " Frames",
   (if seg.source_duration = "infinite" then ("Source Length: Infinite")
    else ("Source Length: " ++ seg.source_duration ++ " - " ++ seg.source_duration_frame ++ " Frames")),
   "Comment: " ++ seg.comment]

/-- The shot name used for a segment: segment.shot_name, falling back to
segment.name when the shot_name attribute is empty. -/
def effectiveShotName (seg : Segment) : String :=
  if seg.shot_name = "" then seg.name else seg.shot_name

/-- Python dict/OrderedDict key set, on an insertion-ordered association
list: an existing key keeps its position and gets the new value, a new key
is appended at the end.  Both shot_dict.update of get_shots and the
ElementTree attribute set of modify_drawing_xml have this semantics. -/
def updAssoc {α : Type} (d : List (String × α)) (k : String) (v : α) :
    List (String × α) :=
  if d.any (fun p => p.1 = k) then
    d.map (fun p => if p.1 = k then (k, v) else p)
  else
    d ++ [(k, v)]

/-- Key lookup on the association list (first matching key). -/
def lookupAssoc {α : Type} : List (String × α) → String → Option α
  | [], _ => none
  | p :: rest, k => if p.1 = k then some p.2 else lookupAssoc rest k

/-- OrderedDict.update with a single key, as used on self.shot_dict. -/
def odUpdate (d : List (String × List String)) (k : String) (v : List String) :
    List (String × List String) :=
  updAssoc d k v

/-- Lookup in the shot dictionary. -/
def odLookup (d : List (String × List String)) (k : String) : Option (List String) :=
  lookupAssoc d k

/-- The loop body of get_shots: walk the segments of the single track; for
each Video Segment, export a thumbnail named after the effective shot name
and store its clip info under that name in self.shot_dict; any other
segment is skipped.  The first component is the shot dictionary, the second
the list of exported thumbnail file names in export order. -/
def getShotsAux (acc : List (String × List String)) (thumbs : List String) :
    List Segment → List (String × List String) × List String
  | [] => (acc, thumbs)
  | seg :: rest =>
    if seg.segType = "Video Segment" then
      let sn := effectiveShotName seg
      getShotsAux (odUpdate acc sn (clipInfoList sn seg)) (thumbs ++ [sn ++ ".jpg"]) rest
    else
      getShotsAux acc thumbs rest

def getShots (segs : List Segment) : List (String × List String) × List String :=
  getShotsAux [] [] segs

/-- The predicate selecting the video segments that end up under shot
name n. -/
def hitsName (n : String) (s : Segment) : Prop :=
  s.segType = "Video Segment" ∧ effectiveShotName s = n

instance (n : String) : DecidablePred (hitsName n) :=
  fun _ => instDecidableAnd

/-! ## export_thumbnail: in/out marks around the export call -/

/-- What the exporter is invoked with: the sequence marks in effect at the
moment of the export call, and the preset fields written just before it. -/
structure ExportCall where
  in_mark : Option Int
  out_mark : Option Int
  namePattern : String
  width : Nat
  height : Nat
deriving DecidableEq

/-- Embedding of export_thumbnail: the preset is rewritten with the shot
name and thumbnail resolution, the sequence in/out marks are set to the
segment record-in frame and record-in + 1, the exporter is called, and both
marks are cleared to None.  Returns the sequence as left behind and the
export call that was made.  Only the marks of the sequence are touched. -/
def exportThumbnail (seq : Sequence) (seg : Segment) (sn : String)
    (thumbWidth thumbHeight : Nat) : Sequence × ExportCall :=
  let marked := { seq with
    in_mark := some seg.record_in,
    out_mark := some (seg.record_in + 1) }
  let call : ExportCall :=
    { in_mark := marked.in_mark
      out_mark := marked.out_mark
      namePattern := sn
      width := thumbWidth
      height := thumbHeight }
  let cleared := { marked with in_mark := none, out_mark := none }
  (cleared, call)

/-! ## Config: load_config and the save on window confirm -/

/-- Default config values created by load_config. -/
structure Settings where
  export_path : String
  thumbnail_size : String
  one_workbook : Bool
  reveal_in_finder : Bool
  save_images : Bool
deriving DecidableEq

def loadConfig : Settings :=
  { export_path := "/opt/Autodesk"
    thumbnail_size := "Medium"
    one_workbook := true
    reveal_in_finder := false
    save_images := false }

/-- Modelled from the spec: PyFlameConfig.save_config of the helper library
lib.pyflame_lib_shot_sheet_maker is not under src/.  The spec says the
config file persists user preferences in a key-value format, so the save is
modelled as writing exactly the key-value pairs it is handed to the config
file. -/
def pyFlameConfigWrite (kvs : List (String × String)) : List (String × String) :=
  kvs

/-- The save_config callback run when the user confirms the main window
(Create button or return key): after the path checks pass it calls
self.settings.save_config with a dict holding only the export path, then
runs create_shot_sheets.  This is the key-value content written to the
config file on confirm. -/
def confirmSaveConfig (entryText : String) : List (String × String) :=
  pyFlameConfigWrite [("export_path", entryText)]

/-! ## Worksheet model: the xlsxwriter calls of create_sequence_worksheet

Each call into the xlsxwriter worksheet object is recorded as one
operation.  Cell contents and addresses are kept; purely visual numeric
parameters (row heights, column widths, image offsets and scales, format
colors) are not modelled beyond the name of the format object used, since
no claim concerns them. -/

inductive WsOp where
  | write (row col : Nat) (content : String) (fmt : String)
  | mergeRange (r1 c1 r2 c2 : Nat) (content : String) (fmt : String)
  | dataValidation (r1 c1 r2 c2 : Nat) (source : List String)
  | insertImage (row col : Nat) (path : String)
  | setRow (row : Nat)
  | setColumn (c1 c2 : Nat)
  | conditionalFormat (r1 c1 r2 c2 : Nat) (criteria value : String) (fmt : String)
deriving DecidableEq

/-- The six status dropdown options, in the insertion order of the
status_formats dict of create_sequence_worksheet. -/
def statusOptions : List String :=
  ["Not Started", "In Progress", "Review", "Internally Approved",
   "Client Approved", "On Hold"]

/-- The department list written into the task row of each shot block. -/
def departments : List String :=
  ["Tracking", "Roto", "Paint", "DMP", "Comp", "CG"]

/-- Python split(sep, 1)[1]: everything after the first occurrence of the
separator (the scripts only apply this to strings built by get_shots, where
the separator is always present). -/
def splitTail (sep s : String) : String :=
  match s.splitOn sep with
  | [] => ""
  | [_] => ""
  | _ :: rest => String.intercalate sep rest

/-- source_name extraction: split(': ', 1)[1] if ': ' in source_info else
source_info. -/
def sourceNameOf (info : String) : String :=
  match info.splitOn (": ") with
  | [] => info
  | [_] => info
  | _ :: rest => String.intercalate (": ") rest

/-- frame count extraction: length_info.split(' - ')[1].split(' ')[0]. -/
def frameCountOf (info : String) : String :=
  (((info.splitOn (" - ")).getD 1 ("")).splitOn (" ")).getD 0 ("")

/-- Entry idx of a clip info list, as self.shot_dict[shot][idx]. -/
def ciEntry (ci : List String) (idx : Nat) : String :=
  ci.getD idx ("")

/-- The worksheet operations of one shot row-block, shot at row r.
This transcribes the body of the per-shot loop of
create_sequence_worksheet in source order; every loop in that body has
constant bounds (range(5), enumerate of a five/six element literal,
range(2, 8), range(4), range(8), the five non-default statuses), so each is
written out iteration by iteration.  tip is self.temp_image_path; ci the
clip info list of the shot.  The branch guarded by
current_row + 1 == current_row in the dropdown loop is dead (the guard is
never true) and contributes no operation. -/
def shotBlockOps (tip : String) (r : Nat) (sn : String) (ci : List String) :
    List WsOp :=
  let sourceTc := splitTail (": ") (ciEntry ci 4) ++ "\n" ++ splitTail (": ") (ciEntry ci 5)
  let seqTc := splitTail (": ") (ciEntry ci 7) ++ "\n" ++ splitTail (": ") (ciEntry ci 8)
  let metadataWrites :=
    [WsOp.write (r + 1) 3 (sourceNameOf (ciEntry ci 1)) "source_name_format",
     WsOp.write (r + 1) 4 sourceTc ("metadata_value_format"),
     WsOp.write (r + 1) 5 seqTc ("metadata_value_format"),
     WsOp.write (r + 1) 6 (frameCountOf (ciEntry ci 11)) "metadata_value_format"]
  -- for i in range(5): set_row(current_row + i, ...)
  [WsOp.setRow r, WsOp.setRow (r + 1), WsOp.setRow (r + 2),
   WsOp.setRow (r + 3), WsOp.setRow (r + 4),
   WsOp.mergeRange r 0 (r + 4) 0 "" "thumbnail_format",
   WsOp.mergeRange r 0 (r + 4) 0 "" "thumbnail_format",
   WsOp.insertImage r 0 (tip ++ "/" ++ sn ++ ".jpg"),
   WsOp.setRow r,
   WsOp.mergeRange r 1 (r + 1) 2 sn ("shot_name_format"),
   -- for i in range(5): write(current_row, i + 3, str(i + 1), ...)
   WsOp.write r 3 "1" "shot_name_format",
   WsOp.write r 4 "2" "shot_name_format",
   WsOp.write r 5 "3" "shot_name_format",
   WsOp.write r 6 "4" "shot_name_format",
   WsOp.write r 7 "5" "shot_name_format",
   WsOp.setRow r,
   -- for i, label in enumerate(metadata_labels): write(current_row, i + 3, label, ...)
   WsOp.write r 3 "Source Name" "metadata_header_format",
   WsOp.write r 4 "Source TC I/O" "metadata_header_format",
   WsOp.write r 5 "Seq TC I/O" "metadata_header_format",
   WsOp.write r 6 "Length frames" "metadata_header_format",
   WsOp.write r 7 "" "metadata_header_format",
   WsOp.setRow (r + 1),
   WsOp.setColumn 3 3] ++
  metadataWrites ++
  [WsOp.write (r + 1) 7 "" "metadata_value_format",
   -- for col in range(3, 7): write(current_row + 1, col, '', shot_name_format)
   WsOp.write (r + 1) 3 "" "shot_name_format",
   WsOp.write (r + 1) 4 "" "shot_name_format",
   WsOp.write (r + 1) 5 "" "shot_name_format",
   WsOp.write (r + 1) 6 "" "shot_name_format",
   WsOp.write (r + 2) 1 "Task:" "task_header_format",
   WsOp.write (r + 3) 1 "Status:" "label_format",
   WsOp.write (r + 4) 1 "Artist:" "label_format",
   -- for col, dept in enumerate(departments, start=2): write(current_row + 2, col, dept, ...)
   WsOp.write (r + 2) 2 "Tracking" "dept_task_format",
   WsOp.write (r + 2) 3 "Roto" "dept_task_format",
   WsOp.write (r + 2) 4 "Paint" "dept_task_format",
   WsOp.write (r + 2) 5 "DMP" "dept_task_format",
   WsOp.write (r + 2) 6 "Comp" "dept_task_format",
   WsOp.write (r + 2) 7 "CG" "dept_task_format",
   -- for col in range(2, 8): data_validation + default status + empty artist cell
   WsOp.dataValidation (r + 3) 2 (r + 3) 2 statusOptions,
   WsOp.write (r + 3) 2 "Not Started" "status_cell_format",
   WsOp.write (r + 4) 2 "" "artist_format",
   WsOp.dataValidation (r + 3) 3 (r + 3) 3 statusOptions,
   WsOp.write (r + 3) 3 "Not Started" "status_cell_format",
   WsOp.write (r + 4) 3 "" "artist_format",
   WsOp.dataValidation (r + 3) 4 (r + 3) 4 statusOptions,
   WsOp.write (r + 3) 4 "Not Started" "status_cell_format",
   WsOp.write (r + 4) 4 "" "artist_format",
   WsOp.dataValidation (r + 3) 5 (r + 3) 5 statusOptions,
   WsOp.write (r + 3) 5 "Not Started" "status_cell_format",
   WsOp.write (r + 4) 5 "" "artist_format",
   WsOp.dataValidation (r + 3) 6 (r + 3) 6 statusOptions,
   WsOp.write (r + 3) 6 "Not Started" "status_cell_format",
   WsOp.write (r + 4) 6 "" "artist_format",
   WsOp.dataValidation (r + 3) 7 (r + 3) 7 statusOptions,
   WsOp.write (r + 3) 7 "Not Started" "status_cell_format",
   WsOp.write (r + 4) 7 "" "artist_format",
   -- for status in status_formats if status != 'Not Started': conditional_format
   WsOp.conditionalFormat (r + 3) 2 (r + 3) 7 "equal to" "\"In Progress\"" "status_format",
   WsOp.conditionalFormat (r + 3) 2 (r + 3) 7 "equal to" "\"Review\"" "status_format",
   WsOp.conditionalFormat (r + 3) 2 (r + 3) 7 "equal to" "\"Internally Approved\"" "status_format",
   WsOp.conditionalFormat (r + 3) 2 (r + 3) 7 "equal to" "\"Client Approved\"" "status_format",
   WsOp.conditionalFormat (r + 3) 2 (r + 3) 7 "equal to" "\"On Hold\"" "status_format"] ++
  metadataWrites ++
  [WsOp.setRow (r + 5),
   -- for col in range(8): write(current_row + 5, col, '', divider_format)
   WsOp.write (r + 5) 0 "" "divider_format",
   WsOp.write (r + 5) 1 "" "divider_format",
   WsOp.write (r + 5) 2 "" "divider_format",
   WsOp.write (r + 5) 3 "" "divider_format",
   WsOp.write (r + 5) 4 "" "divider_format",
   WsOp.write (r + 5) 5 "" "divider_format",
   WsOp.write (r + 5) 6 "" "divider_format",
   WsOp.write (r + 5) 7 "" "divider_format"]

/-- The per-shot loop of create_sequence_worksheet: one block per entry of
self.shot_dict, starting at row 1 and advancing by 6 rows per shot. -/
def blocksOps (tip : String) (r : Nat) :
    List (String × List String) → List WsOp
  | [] => []
  | (sn, ci) :: rest => shotBlockOps tip r sn ci ++ blocksOps tip (r + 6) rest

/-- The header operations written before the shot loop. -/
def headerOps : List WsOp :=
  [WsOp.setColumn 0 0,
   WsOp.setColumn 1 1,
   WsOp.setColumn 2 7,
   WsOp.write 0 0 "Thumbnail" "header_format",
   WsOp.write 0 1 "Shot Info" "header_format",
   WsOp.write 0 2 "Departments and Tasks" "header_format",
   WsOp.mergeRange 0 2 0 7 "Departments and Tasks" "header_format"]

structure Worksheet where
  wsName : String
  ops : List WsOp
deriving DecidableEq

structure Workbook where
  path : String
  worksheets : List Worksheet
deriving DecidableEq

/-- workbook.add_worksheet(name): appends a worksheet to the workbook. -/
def addWorksheet (wb : Workbook) (ws : Worksheet) : Workbook :=
  { wb with worksheets := wb.worksheets ++ [ws] }

/-- All operations written to the worksheet of one sequence: the header,
one block per shot_dict entry starting at row 1, and the final title merge
across the header row. -/
def worksheetOps (tip : String) (shotDict : List (String × List String))
    (seqName : String) : List WsOp :=
  headerOps ++ blocksOps tip 1 shotDict ++
    [WsOp.mergeRange 0 0 0 7 seqName ("title_format")]

/-- create_sequence_worksheet: adds one worksheet named after the sequence
to the workbook and writes the worksheet operations to it. -/
def createSequenceWorksheet (wb : Workbook) (tip : String)
    (shotDict : List (String × List String)) (seqName : String) : Workbook :=
  addWorksheet wb { wsName := seqName, ops := worksheetOps tip shotDict seqName }

/-! ## Observations on a worksheet operation list -/

/-- The contents written (worksheet.write) to one cell, in operation
order. -/
def writesAt (ops : List WsOp) (row col : Nat) : List String :=
  ops.filterMap (fun op =>
    match op with
    | WsOp.write r c s _ => if r = row ∧ c = col then some s else none
    | _ => none)

/-- The dropdown sources of the data validations whose range covers one
cell, in operation order. -/
def validationsAt (ops : List WsOp) (row col : Nat) : List (List String) :=
  ops.filterMap (fun op =>
    match op with
    | WsOp.dataValidation r1 c1 r2 c2 src =>
      if r1 ≤ row ∧ row ≤ r2 ∧ c1 ≤ col ∧ col ≤ c2 then some src else none
    | _ => none)

/-- The contents of the merge ranges covering one cell, in operation
order. -/
def mergesAt (ops : List WsOp) (row col : Nat) : List String :=
  ops.filterMap (fun op =>
    match op with
    | WsOp.mergeRange r1 c1 r2 c2 s _ =>
      if r1 ≤ row ∧ row ≤ r2 ∧ c1 ≤ col ∧ col ≤ c2 then some s else none
    | _ => none)

/-- Number of operations that write the Task: label: each shot row-block
writes it exactly once, so this counts the row-blocks of a worksheet. -/
def countTaskWrites (ops : List WsOp) : Nat :=
  (ops.filter (fun op =>
    match op with
    | WsOp.write _ 1 "Task:" "task_header_format" => true
    | _ => false)).length

/-! ## create_shot_sheets: ordering, workbooks and the event trace -/

/-- The sorted sequence list built at the top of create_shot_sheets: the
quote-stripped names are collected and list.sort()ed ascending, then for
each name every selected sequence with that name is appended. -/
def sortedSequences (sel : List Sequence) : List Sequence :=
  let names := List.insertionSort strLeR (sel.map Sequence.name)
  names.flatMap (fun n => sel.filter (fun s => s.name = n))

/-- The workbook produced for one sequence: xlsxwriter.Workbook at
export_path/<name>.xlsx, filled by get_shots and
create_sequence_worksheet.  tempPath is self.temp_path; the per-sequence
thumbnail directory is temp_path/<name>. -/
def workbookFor (exportPath tempPath : String) (seq : Sequence) : Workbook :=
  let tip := tempPath ++ "/" ++ seq.name
  let dict := (getShots seq.segments).1
  createSequenceWorksheet
    { path := exportPath ++ "/" ++ seq.name ++ ".xlsx", worksheets := [] }
    tip dict seq.name

/-- The workbooks created by the per-sequence loop of create_shot_sheets,
in processing order (the error-free run). -/
def createShotSheets (exportPath tempPath : String) (sel : List Sequence) :
    List Workbook :=
  (sortedSequences sel).map (workbookFor exportPath tempPath)

/-- Observable events of a create_shot_sheets run, in order. -/
inductive Event where
  | workbookCreated (name : String)
  | errorDialog (name : String)
  | tempDeleted
  | windowClosed
  | completionDialog
  | revealedInFinder
deriving DecidableEq

/-- The per-sequence loop with its try/except: when creating the workbook
for a sequence raises (fails names the raising sequences), the except arm
shows the error dialog for it and the loop continues with the next
sequence; otherwise the workbook is created. -/
def processEvents (fails : String → Bool) (sel : List Sequence) : List Event :=
  (sortedSequences sel).map (fun s =>
    if fails s.name then Event.errorDialog s.name else Event.workbookCreated s.name)

/-- The event trace of one call of create_shot_sheets: the per-sequence
loop, then the temp directory delete, the window close, the completion
dialog, and the optional reveal in finder. -/
def createShotSheetsEvents (fails : String → Bool) (reveal : Bool)
    (sel : List Sequence) : List Event :=
  processEvents fails sel ++
  [Event.tempDeleted, Event.windowClosed, Event.completionDialog] ++
  (if reveal then [Event.revealedInFinder] else [])

/-- A whole run from the main window on: __init__ has already (re)created
the temp directory; if the user confirms (Create button or return key),
create_shot_sheets runs; if the user cancels, the window just closes. -/
def appRun (confirms : Bool) (fails : String → Bool) (reveal : Bool)
    (sel : List Sequence) : List Event :=
  if confirms then createShotSheetsEvents fails reveal sel
  else [Event.windowClosed]

/-- Whether the temp directory still exists after a trace, starting from
the state left by __init__ (temp directory created). -/
def tempAfter (evs : List Event) : Bool :=
  evs.foldl (fun t e => match e with | Event.tempDeleted => false | _ => t) true

/-! ## edit_xlsx_file: the xlsx archive patch

The xlsx archive is modelled as the list of its file members (path inside
the archive, content).  Members that the patch parses are carried as XML
element trees; everything else is carried as raw bytes.  An XML element is
its ElementTree-qualified tag ({namespace}local), its attributes in order,
and its children. -/

inductive XElem where
  | node (tag : String) (attrs : List (String × String)) (children : List XElem)

def XElem.tag : XElem → String
  | .node t _ _ => t

def XElem.attrs : XElem → List (String × String)
  | .node _ a _ => a

def XElem.children : XElem → List XElem
  | .node _ _ c => c

/-- ElementTree attribute set: an existing key keeps its position and gets
the new value, a missing key is appended. -/
def setAttr (a : List (String × String)) (k v : String) : List (String × String) :=
  updAssoc a k v

/-- Attribute lookup (first matching key). -/
def attrLookup (a : List (String × String)) (k : String) : Option String :=
  lookupAssoc a k

def xdrNS : String :=
  "\x7bhttp://schemas.openxmlformats.org/drawingml/2006/spreadsheetDrawing\x7d"

def twoCellAnchorTag : String := xdrNS ++ "twoCellAnchor"

def oneCellAnchorTag : String := xdrNS ++ "oneCellAnchor"

/-- The patch applied to a direct child of the drawing root by the two
anchor passes together: an anchor element gets editAs set to twoCell, any
other element is untouched.  modifyDrawingXml_node proves that the two
passes of modify_drawing_xml amount to mapping this over the direct
children. -/
def patchAnchor (c : XElem) : XElem :=
  if c.tag = twoCellAnchorTag ∨ c.tag = oneCellAnchorTag then
    XElem.node c.tag (setAttr c.attrs ("editAs") "twoCell") c.children
  else c

/-- One pass of the anchor loop: root.findall(tag) yields the direct
children with that tag, and each gets editAs set to twoCell. -/
def setEditAsOnTag (t : String) : XElem → XElem
  | .node tag attrs children =>
    .node tag attrs (children.map (fun c =>
      match c with
      | .node ct ca cc =>
        if ct = t then .node ct (setAttr ca ("editAs") "twoCell") cc
        else .node ct ca cc))

/-- modify_drawing_xml: the twoCellAnchor pass, then the oneCellAnchor
pass. -/
def modifyDrawingXml (root : XElem) : XElem :=
  setEditAsOnTag oneCellAnchorTag (setEditAsOnTag twoCellAnchorTag root)

inductive Member where
  | xml (root : XElem)
  | raw (data : String)

def patchMember : Member → Member
  | .xml root => .xml (modifyDrawingXml root)
  | .raw d => .raw d

/-- Whether a member path is one the patch rewrites: a file directly inside
xl/drawings whose name starts with drawing and ends with .xml (os.listdir
of the drawings directory plus the name test of patch_xlsx_images). -/
def isDrawingPath (p : String) : Bool :=
  match p.splitOn ("/") with
  | ["xl", "drawings", f] => f.startsWith ("drawing") && f.endsWith (".xml")
  | _ => false

/-- patch_xlsx_images on the archive: the archive is extracted, every
drawing XML directly under xl/drawings is rewritten in place by
modify_drawing_xml, and all extracted files are zipped back under their
original relative names to the original path.  Member for member, a
drawing file is patched and everything else is carried over unchanged. -/
def editXlsxFile (archive : List (String × Member)) : List (String × Member) :=
  archive.map (fun pm =>
    if isDrawingPath pm.1 then (pm.1, patchMember pm.2) else pm)

/-! ## Concrete sample data

Small concrete host objects used to evaluate the definitions on explicit
inputs. -/

def segA0 : Segment :=
  { segType := "Video Segment"
    name := "seg_a"
    shot_name := "shot_010"
    source_name := "A_src"
    file_path := "/media/a.mov"
    source_in := "00:00:01:00"
    source_out := "00:00:02:01"
    record_in := 100
    record_in_tc := "01:00:00:04"
    record_out_tc := "01:00:01:05"
    record_in_frame := "101"
    record_out_frame := "126"
    record_duration := "00:00:01:01"
    record_duration_frame := "25"
    source_duration := "00:00:01:01"
    source_duration_frame := "25"
    comment := "first" }

/-- A later video segment with the same shot name as segA0. -/
def segD0 : Segment :=
  { segA0 with name := "seg_d", source_name := "D_src", comment := "later" }

/-- A video segment with an empty shot_name attribute. -/
def segB0 : Segment :=
  { segA0 with name := "seg_b", shot_name := "" }

/-- A non-video segment. -/
def segC0 : Segment :=
  { segA0 with name := "seg_c", segType := "Audio Segment" }

def seqA0 : Sequence :=
  { name := "alpha"
    height := 1080
    width := 1920
    in_mark := none
    out_mark := none
    segments := [segA0] }

def seqB0 : Sequence :=
  { seqA0 with name := "beta", segments := [segB0] }

/-- An error oracle making exactly the sequence named beta raise. -/
def cFails : String → Bool :=
  fun n => decide (n = "beta")

/-- A shot dictionary with one entry. -/
def cDict : List (String × List String) :=
  [("shot_010", clipInfoList ("shot_010") segA0)]

/-- A two-member xlsx archive: one drawing XML with a twoCellAnchor and a
plain child, and one non-drawing member. -/
def cArchive : List (String × Member) :=
  [("xl/drawings/drawing1.xml",
    Member.xml (XElem.node (xdrNS ++ "wsDr") []
      [XElem.node twoCellAnchorTag [("editAs", "oneCell")] [],
       XElem.node (xdrNS ++ "absoluteAnchor") [] []])),
   ("xl/workbook.xml", Member.raw ("workbook"))]

/-! ## Helper lemmas: association-list update -/

theorem lookup_map_upd {α : Type} (d : List (String × α)) (k : String) (v : α)
    (h : d.any (fun p => p.1 = k) = true) :
    lookupAssoc (d.map (fun p => if p.1 = k then (k, v) else p)) k = some v := by
  induction d with
  | nil => simp at h
  | cons p rest ih =>
    by_cases hp : p.1 = k
    · simp [lookupAssoc, hp]
    · have h' : rest.any (fun p => p.1 = k) = true := by
        rw [List.any_cons, Bool.or_eq_true] at h
        rcases h with h | h
        · exact absurd (of_decide_eq_true h) hp
        · exact h
      simp [lookupAssoc, hp, ih h']

theorem lookup_append_single {α : Type} (d : List (String × α)) (k : String) (v : α)
    (h : d.any (fun p => p.1 = k) = false) :
    lookupAssoc (d ++ [(k, v)]) k = some v := by
  induction d with
  | nil => simp [lookupAssoc]
  | cons p rest ih =>
    rw [List.any_cons, Bool.or_eq_false_iff] at h
    have hp : ¬ p.1 = k := of_decide_eq_false h.1
    simp [lookupAssoc, hp, ih h.2]

theorem lookupAssoc_updAssoc_self {α : Type} (d : List (String × α)) (k : String)
    (v : α) : lookupAssoc (updAssoc d k v) k = some v := by
  unfold updAssoc
  by_cases h : d.any (fun p => p.1 = k) = true
  · simpa [h] using lookup_map_upd d k v h
  · have h' : d.any (fun p => p.1 = k) = false := Bool.eq_false_iff.mpr h
    simpa [h'] using lookup_append_single d k v h'

theorem lookup_map_upd_other {α : Type} (d : List (String × α)) (k k' : String)
    (v : α) (h : k' ≠ k) :
    lookupAssoc (d.map (fun p => if p.1 = k then (k, v) else p)) k' =
      lookupAssoc d k' := by
  induction d with
  | nil => rfl
  | cons p rest ih =>
    by_cases hp : p.1 = k
    · have hk : ¬ (k = k') := fun hk => h hk.symm
      have hp' : ¬ (p.1 = k') := by rw [hp]; exact hk
      simp [lookupAssoc, hp, hk, hp', ih]
    · by_cases hpk' : p.1 = k'
      · simp [lookupAssoc, hp, hpk', h]
      · simp [lookupAssoc, hp, hpk', ih]

theorem lookup_append_single_other {α : Type} (d : List (String × α))
    (k k' : String) (v : α) (h : ¬ (k = k')) :
    lookupAssoc (d ++ [(k, v)]) k' = lookupAssoc d k' := by
  induction d with
  | nil => simp [lookupAssoc, h]
  | cons p rest ih =>
    by_cases hpk' : p.1 = k'
    · simp [lookupAssoc, hpk']
    · simp [lookupAssoc, hpk', ih]

theorem lookupAssoc_updAssoc_other {α : Type} (d : List (String × α)) (k k' : String)
    (v : α) (h : k' ≠ k) :
    lookupAssoc (updAssoc d k v) k' = lookupAssoc d k' := by
  unfold updAssoc
  by_cases hany : d.any (fun p => p.1 = k) = true
  · simpa [hany] using lookup_map_upd_other d k k' v h
  · have h' : d.any (fun p => p.1 = k) = false := Bool.eq_false_iff.mpr hany
    simpa [h'] using lookup_append_single_other d k k' v (fun hk => h hk.symm)

theorem keys_updAssoc {α : Type} (d : List (String × α)) (k : String) (v : α) :
    (updAssoc d k v).map Prod.fst =
      if d.any (fun p => p.1 = k) then d.map Prod.fst
      else d.map Prod.fst ++ [k] := by
  unfold updAssoc
  by_cases hany : d.any (fun p => p.1 = k) = true
  · rw [if_pos hany, if_pos hany, List.map_map]
    apply List.map_congr_left
    intro p _
    by_cases hp : p.1 = k
    · simp [hp]
    · simp [hp]
  · rw [if_neg hany, if_neg hany, List.map_append]
    rfl

theorem mem_keys_updAssoc {α : Type} (d : List (String × α)) (k n : String) (v : α) :
    n ∈ (updAssoc d k v).map Prod.fst ↔ n ∈ d.map Prod.fst ∨ n = k := by
  rw [keys_updAssoc]
  by_cases hany : d.any (fun p => p.1 = k) = true
  · rw [if_pos hany]
    constructor
    · exact fun h => Or.inl h
    · rintro (h | rfl)
      · exact h
      · rcases List.any_eq_true.mp hany with ⟨p, hp, hpk⟩
        have hpn : p.1 = n := of_decide_eq_true hpk
        exact hpn ▸ List.mem_map_of_mem Prod.fst hp
  · rw [if_neg hany]
    simp [List.mem_append]

theorem nodup_keys_updAssoc {α : Type} (d : List (String × α)) (k : String) (v : α)
    (h : (d.map Prod.fst).Nodup) : ((updAssoc d k v).map Prod.fst).Nodup := by
  rw [keys_updAssoc]
  by_cases hany : d.any (fun p => p.1 = k) = true
  · rw [if_pos hany]; exact h
  · rw [if_neg hany]
    have hk : k ∉ d.map Prod.fst := by
      intro hmem
      rcases List.mem_map.mp hmem with ⟨p, hp, hpk⟩
      exact hany (List.any_eq_true.mpr ⟨p, hp, decide_eq_true hpk⟩)
    refine List.Nodup.append h (List.nodup_singleton k) ?_
    intro a ha hak
    rw [List.mem_singleton] at hak
    exact hk (hak ▸ ha)

/-! ## Helper lemmas: get_shots -/

theorem odLookup_odUpdate_self (d : List (String × List String)) (k : String)
    (v : List String) : odLookup (odUpdate d k v) k = some v :=
  lookupAssoc_updAssoc_self d k v

theorem odLookup_odUpdate_other (d : List (String × List String)) (k k' : String)
    (v : List String) (h : k' ≠ k) :
    odLookup (odUpdate d k v) k' = odLookup d k' :=
  lookupAssoc_updAssoc_other d k k' v h

theorem getShotsAux_lookup (segs : List Segment)
    (acc : List (String × List String)) (thumbs : List String) (n : String) :
    odLookup (getShotsAux acc thumbs segs).1 n =
      (match (segs.filter (fun s => hitsName n s)).getLast? with
       | some s => some (clipInfoList n s)
       | none => odLookup acc n) := by
  induction segs generalizing acc thumbs with
  | nil => rfl
  | cons seg rest ih =>
    by_cases hv : seg.segType = "Video Segment"
    · rw [show getShotsAux acc thumbs (seg :: rest) =
          getShotsAux
            (odUpdate acc (effectiveShotName seg)
              (clipInfoList (effectiveShotName seg) seg))
            (thumbs ++ [effectiveShotName seg ++ ".jpg"]) rest
        from by simp [getShotsAux, hv]]
      rw [ih]
      by_cases hn : effectiveShotName seg = n
      · rw [show List.filter (fun s => hitsName n s) (seg :: rest) =
            seg :: List.filter (fun s => hitsName n s) rest
          from by simp [hitsName, hv, hn]]
        cases hrest : rest.filter (fun s => hitsName n s) with
        | nil =>
          simp only [List.getLast?_nil, List.getLast?_singleton]
          rw [hn, odLookup_odUpdate_self]
        | cons x xs =>
          rw [List.getLast?_cons_cons]
          cases hy : (x :: xs).getLast? with
          | none => exact absurd (List.getLast?_eq_none_iff.mp hy) (by simp)
          | some y => rfl
      · rw [show List.filter (fun s => hitsName n s) (seg :: rest) =
            List.filter (fun s => hitsName n s) rest
          from by simp [hitsName, hn]]
        cases hrest : rest.filter (fun s => hitsName n s) with
        | nil =>
          simp only [List.getLast?_nil]
          rw [odLookup_odUpdate_other]
          exact fun hk => hn hk.symm
        | cons x xs =>
          cases hy : (x :: xs).getLast? with
          | none => exact absurd (List.getLast?_eq_none_iff.mp hy) (by simp)
          | some y => rfl
    · rw [show getShotsAux acc thumbs (seg :: rest) = getShotsAux acc thumbs rest
        from by simp [getShotsAux, hv]]
      rw [ih, show List.filter (fun s => hitsName n s) (seg :: rest) =
          List.filter (fun s => hitsName n s) rest
        from by simp [hitsName, hv]]

/-- The shot dictionary maps each name to the clip info of the last video
segment carrying that effective shot name, and to nothing otherwise. -/
theorem getShots_lookup (segs : List Segment) (n : String) :
    odLookup (getShots segs).1 n =
      ((segs.filter (fun s => hitsName n s)).getLast?).map
        (fun s => clipInfoList n s) := by
  rw [getShots, getShotsAux_lookup]
  cases hy : (segs.filter (fun s => hitsName n s)).getLast? with
  | none => rfl
  | some y => rfl

theorem getShotsAux_keys_mem (segs : List Segment)
    (acc : List (String × List String)) (thumbs : List String) (n : String) :
    n ∈ (getShotsAux acc thumbs segs).1.map Prod.fst ↔
      n ∈ acc.map Prod.fst ∨
        ∃ s, s ∈ segs ∧ s.segType = "Video Segment" ∧ effectiveShotName s = n := by
  induction segs generalizing acc thumbs with
  | nil => simp [getShotsAux]
  | cons seg rest ih =>
    by_cases hv : seg.segType = "Video Segment"
    · rw [show getShotsAux acc thumbs (seg :: rest) =
          getShotsAux
            (odUpdate acc (effectiveShotName seg)
              (clipInfoList (effectiveShotName seg) seg))
            (thumbs ++ [effectiveShotName seg ++ ".jpg"]) rest
        from by simp [getShotsAux, hv]]
      rw [ih]
      unfold odUpdate
      rw [mem_keys_updAssoc]
      constructor
      · rintro ((h | h) | ⟨s, hs, hvs, hn⟩)
        · exact Or.inl h
        · exact Or.inr ⟨seg, List.mem_cons_self seg rest, hv, h.symm⟩
        · exact Or.inr ⟨s, List.mem_cons_of_mem seg hs, hvs, hn⟩
      · rintro (h | ⟨s, hs, hvs, hn⟩)
        · exact Or.inl (Or.inl h)
        · rcases List.mem_cons.mp hs with rfl | hs'
          · exact Or.inl (Or.inr hn.symm)
          · exact Or.inr ⟨s, hs', hvs, hn⟩
    · rw [show getShotsAux acc thumbs (seg :: rest) = getShotsAux acc thumbs rest
        from by simp [getShotsAux, hv]]
      rw [ih]
      constructor
      · rintro (h | ⟨s, hs, hvs, hn⟩)
        · exact Or.inl h
        · exact Or.inr ⟨s, List.mem_cons_of_mem seg hs, hvs, hn⟩
      · rintro (h | ⟨s, hs, hvs, hn⟩)
        · exact Or.inl h
        · rcases List.mem_cons.mp hs with rfl | hs'
          · exact absurd hvs hv
          · exact Or.inr ⟨s, hs', hvs, hn⟩

theorem getShotsAux_keys_nodup (segs : List Segment)
    (acc : List (String × List String)) (thumbs : List String)
    (h : (acc.map Prod.fst).Nodup) :
    ((getShotsAux acc thumbs segs).1.map Prod.fst).Nodup := by
  induction segs generalizing acc thumbs with
  | nil => exact h
  | cons seg rest ih =>
    by_cases hv : seg.segType = "Video Segment"
    · rw [show getShotsAux acc thumbs (seg :: rest) =
          getShotsAux
            (odUpdate acc (effectiveShotName seg)
              (clipInfoList (effectiveShotName seg) seg))
            (thumbs ++ [effectiveShotName seg ++ ".jpg"]) rest
        from by simp [getShotsAux, hv]]
      exact ih _ _ (nodup_keys_updAssoc _ _ _ h)
    · rw [show getShotsAux acc thumbs (seg :: rest) = getShotsAux acc thumbs rest
        from by simp [getShotsAux, hv]]
      exact ih _ _ h

theorem getShotsAux_thumbs (segs : List Segment)
    (acc : List (String × List String)) (thumbs : List String) :
    (getShotsAux acc thumbs segs).2 =
      thumbs ++ (segs.filter (fun s => s.segType = "Video Segment")).map
        (fun s => effectiveShotName s ++ ".jpg") := by
  induction segs generalizing acc thumbs with
  | nil => simp [getShotsAux]
  | cons seg rest ih =>
    by_cases hv : seg.segType = "Video Segment"
    · rw [show getShotsAux acc thumbs (seg :: rest) =
          getShotsAux
            (odUpdate acc (effectiveShotName seg)
              (clipInfoList (effectiveShotName seg) seg))
            (thumbs ++ [effectiveShotName seg ++ ".jpg"]) rest
        from by simp [getShotsAux, hv]]
      rw [ih, show List.filter (fun s => decide (s.segType = "Video Segment")) (seg :: rest) =
          seg :: List.filter (fun s => decide (s.segType = "Video Segment")) rest
        from by simp [hv]]
      simp
    · rw [show getShotsAux acc thumbs (seg :: rest) = getShotsAux acc thumbs rest
        from by simp [getShotsAux, hv]]
      rw [ih, show List.filter (fun s => decide (s.segType = "Video Segment")) (seg :: rest) =
          List.filter (fun s => decide (s.segType = "Video Segment")) rest
        from by simp [hv]]

theorem getShotsAux_skip (segs : List Segment)
    (acc : List (String × List String)) (thumbs : List String) :
    getShotsAux acc thumbs segs =
      getShotsAux acc thumbs (segs.filter (fun s => s.segType = "Video Segment")) := by
  induction segs generalizing acc thumbs with
  | nil => rfl
  | cons seg rest ih =>
    by_cases hv : seg.segType = "Video Segment"
    · rw [show List.filter (fun s => decide (s.segType = "Video Segment")) (seg :: rest) =
          seg :: List.filter (fun s => decide (s.segType = "Video Segment")) rest
        from by simp [hv]]
      simp only [getShotsAux, if_pos hv]
      exact ih _ _
    · rw [show List.filter (fun s => decide (s.segType = "Video Segment")) (seg :: rest) =
          List.filter (fun s => decide (s.segType = "Video Segment")) rest
        from by simp [hv]]
      simp only [getShotsAux, if_neg hv]
      exact ih _ _

/-- Segments whose type is not Video Segment contribute nothing: get_shots
of a segment list equals get_shots of its video segments only. -/
theorem getShots_skip_nonvideo (segs : List Segment) :
    getShots segs =
      getShots (segs.filter (fun s => s.segType = "Video Segment")) :=
  getShotsAux_skip segs [] []

/-! ## Helper lemmas: sorted sequence processing -/

theorem filter_name_map (sel : List Sequence) (n : String) :
    (sel.filter (fun s => s.name = n)).map Sequence.name =
      (sel.map Sequence.name).filter (fun m => m = n) := by
  induction sel with
  | nil => rfl
  | cons s rest ih =>
    by_cases hs : s.name = n
    · simp [hs, ih]
    · simp [hs, ih]

theorem filter_eq_singleton (names : List String) (n : String)
    (hnd : names.Nodup) (hm : n ∈ names) :
    names.filter (fun m => m = n) = [n] := by
  have h1 : names.filter (fun m => m = n) = List.replicate (names.count n) n := by
    simpa using List.filter_eq names n
  rw [h1, List.count_eq_one_of_mem hnd hm]
  rfl

theorem map_name_flatMap (sel : List Sequence) (ns : List String)
    (hnd : (sel.map Sequence.name).Nodup)
    (hsub : ∀ n ∈ ns, n ∈ sel.map Sequence.name) :
    (ns.flatMap (fun n => sel.filter (fun s => s.name = n))).map Sequence.name
      = ns := by
  induction ns with
  | nil => rfl
  | cons n rest ih =>
    rw [List.flatMap_cons, List.map_append, filter_name_map,
      filter_eq_singleton _ _ hnd (hsub n (List.mem_cons_self n rest)),
      ih (fun m hm => hsub m (List.mem_cons_of_mem n hm))]
    rfl

theorem sortedSequences_names (sel : List Sequence)
    (h : (sel.map Sequence.name).Nodup) :
    (sortedSequences sel).map Sequence.name =
      List.insertionSort strLeR (sel.map Sequence.name) := by
  unfold sortedSequences
  exact map_name_flatMap sel _ h
    (fun n hn => (List.perm_insertionSort strLeR (sel.map Sequence.name)).mem_iff.mp hn)

theorem sortedSequences_sorted (sel : List Sequence)
    (h : (sel.map Sequence.name).Nodup) :
    List.Sorted strLeR ((sortedSequences sel).map Sequence.name) := by
  rw [sortedSequences_names sel h]
  exact List.sorted_insertionSort strLeR (sel.map Sequence.name)

theorem mem_sortedSequences (sel : List Sequence) (s : Sequence) (hs : s ∈ sel) :
    s ∈ sortedSequences sel := by
  unfold sortedSequences
  refine List.mem_flatMap.mpr ⟨s.name, ?_, ?_⟩
  · exact (List.perm_insertionSort strLeR (sel.map Sequence.name)).mem_iff.mpr
      (List.mem_map_of_mem Sequence.name hs)
  · exact List.mem_filter.mpr ⟨hs, by simp⟩

theorem sortedSequences_sub (sel : List Sequence) (s : Sequence)
    (hs : s ∈ sortedSequences sel) : s ∈ sel := by
  unfold sortedSequences at hs
  rcases List.mem_flatMap.mp hs with ⟨n, _, hmem⟩
  exact (List.mem_filter.mp hmem).1

theorem sortedSequences_perm (sel : List Sequence)
    (h : (sel.map Sequence.name).Nodup) :
    (sortedSequences sel).Perm sel := by
  have hsel : sel.Nodup := List.Nodup.of_map Sequence.name h
  have hres : (sortedSequences sel).Nodup := by
    apply List.Nodup.of_map Sequence.name
    rw [sortedSequences_names sel h]
    exact ((List.perm_insertionSort strLeR (sel.map Sequence.name)).nodup_iff).mpr h
  exact (List.perm_ext_iff_of_nodup hres hsel).mpr
    (fun a => ⟨sortedSequences_sub sel a, mem_sortedSequences sel a⟩)

/-! ## Helper lemmas: counting shot row-blocks -/

theorem countTaskWrites_append (l1 l2 : List WsOp) :
    countTaskWrites (l1 ++ l2) = countTaskWrites l1 + countTaskWrites l2 := by
  unfold countTaskWrites
  rw [List.filter_append, List.length_append]

theorem countTaskWrites_block (tip : String) (r : Nat) (sn : String)
    (ci : List String) : countTaskWrites (shotBlockOps tip r sn ci) = 1 := rfl

theorem countTaskWrites_blocks (tip : String) (r : Nat)
    (dict : List (String × List String)) :
    countTaskWrites (blocksOps tip r dict) = dict.length := by
  induction dict generalizing r with
  | nil => rfl
  | cons p rest ih =>
    rw [show blocksOps tip r (p :: rest) =
        shotBlockOps tip r p.1 p.2 ++ blocksOps tip (r + 6) rest from rfl,
      countTaskWrites_append, countTaskWrites_block, ih]
    simp [Nat.add_comm]

theorem countTaskWrites_worksheet (tip : String)
    (dict : List (String × List String)) (seqName : String) :
    countTaskWrites (worksheetOps tip dict seqName) = dict.length := by
  unfold worksheetOps
  rw [countTaskWrites_append, countTaskWrites_append, countTaskWrites_blocks,
    show countTaskWrites headerOps = 0 from rfl,
    show countTaskWrites [WsOp.mergeRange 0 0 0 7 seqName ("title_format")] = 0 from rfl]
  omega

/-! ## Helper lemmas: locating the status and artist cells

A shot block placed at row r only touches rows r .. r + 5, so the block of
shot i is the only one writing to the status row r + 3 and artist row
r + 4 of that shot. -/

theorem writesAt_append (l1 l2 : List WsOp) (row col : Nat) :
    writesAt (l1 ++ l2) row col = writesAt l1 row col ++ writesAt l2 row col := by
  unfold writesAt
  exact List.filterMap_append l1 l2 _

theorem validationsAt_append (l1 l2 : List WsOp) (row col : Nat) :
    validationsAt (l1 ++ l2) row col =
      validationsAt l1 row col ++ validationsAt l2 row col := by
  unfold validationsAt
  exact List.filterMap_append l1 l2 _

theorem mergesAt_append (l1 l2 : List WsOp) (row col : Nat) :
    mergesAt (l1 ++ l2) row col = mergesAt l1 row col ++ mergesAt l2 row col := by
  unfold mergesAt
  exact List.filterMap_append l1 l2 _

theorem shotBlock_before_target (tip : String) (sn : String) (ci : List String)
    (row m col : Nat) :
    writesAt (shotBlockOps tip (row + m + 1) sn ci) row col = [] ∧
    validationsAt (shotBlockOps tip (row + m + 1) sn ci) row col = [] ∧
    mergesAt (shotBlockOps tip (row + m + 1) sn ci) row col = [] := by
  refine ⟨?_, ?_, ?_⟩ <;>
    simp_arith [shotBlockOps, writesAt, validationsAt, mergesAt]

theorem shotBlock_after_target (tip : String) (sn : String) (ci : List String)
    (r m col : Nat) :
    writesAt (shotBlockOps tip r sn ci) (r + 6 + m) col = [] ∧
    validationsAt (shotBlockOps tip r sn ci) (r + 6 + m) col = [] ∧
    mergesAt (shotBlockOps tip r sn ci) (r + 6 + m) col = [] := by
  refine ⟨?_, ?_, ?_⟩ <;>
    simp_arith [shotBlockOps, writesAt, validationsAt, mergesAt]

theorem shotBlock_status_cells (tip : String) (r : Nat) (sn : String)
    (ci : List String) (c : Nat) (h2 : 2 ≤ c) (h7 : c ≤ 7) :
    writesAt (shotBlockOps tip r sn ci) (r + 3) c = ["Not Started"]
    ∧ writesAt (shotBlockOps tip r sn ci) (r + 4) c = [""]
    ∧ validationsAt (shotBlockOps tip r sn ci) (r + 3) c = [statusOptions]
    ∧ mergesAt (shotBlockOps tip r sn ci) (r + 3) c = []
    ∧ mergesAt (shotBlockOps tip r sn ci) (r + 4) c = [] := by
  interval_cases c <;> refine ⟨?_, ?_, ?_, ?_, ?_⟩ <;>
    simp_arith [shotBlockOps, writesAt, validationsAt, mergesAt]

theorem blocks_after_target (tip : String) (dict : List (String × List String)) :
    ∀ row m col,
      writesAt (blocksOps tip (row + m + 1) dict) row col = [] ∧
      validationsAt (blocksOps tip (row + m + 1) dict) row col = [] ∧
      mergesAt (blocksOps tip (row + m + 1) dict) row col = [] := by
  induction dict with
  | nil => exact fun row m col => ⟨rfl, rfl, rfl⟩
  | cons p rest ih =>
    intro row m col
    rw [show blocksOps tip (row + m + 1) (p :: rest) =
        shotBlockOps tip (row + m + 1) p.1 p.2 ++
          blocksOps tip (row + m + 1 + 6) rest from rfl]
    rw [writesAt_append, validationsAt_append, mergesAt_append,
      show row + m + 1 + 6 = row + (m + 6) + 1 from by omega]
    obtain ⟨hw, hv, hm⟩ := shotBlock_before_target tip p.1 p.2 row m col
    obtain ⟨hw', hv', hm'⟩ := ih row (m + 6) col
    exact ⟨by rw [hw, hw']; rfl, by rw [hv, hv']; rfl, by rw [hm, hm']; rfl⟩

theorem blocks_status_cells (tip : String) (dict : List (String × List String)) :
    ∀ i r c, i < dict.length → 2 ≤ c → c ≤ 7 →
      writesAt (blocksOps tip r dict) (r + (6 * i + 3)) c = ["Not Started"]
      ∧ writesAt (blocksOps tip r dict) (r + (6 * i + 4)) c = [""]
      ∧ validationsAt (blocksOps tip r dict) (r + (6 * i + 3)) c = [statusOptions]
      ∧ mergesAt (blocksOps tip r dict) (r + (6 * i + 3)) c = []
      ∧ mergesAt (blocksOps tip r dict) (r + (6 * i + 4)) c = [] := by
  induction dict with
  | nil => exact fun i r c hi _ _ => absurd hi (by simp)
  | cons p rest ih =>
    intro i r c hi h2 h7
    rw [show blocksOps tip r (p :: rest) =
        shotBlockOps tip r p.1 p.2 ++ blocksOps tip (r + 6) rest from rfl]
    cases i with
    | zero =>
      rw [show r + (6 * 0 + 3) = r + 3 from by omega,
        show r + (6 * 0 + 4) = r + 4 from by omega,
        writesAt_append, writesAt_append, validationsAt_append,
        mergesAt_append, mergesAt_append]
      obtain ⟨hw3, hw4, hv3, hm3, hm4⟩ := shotBlock_status_cells tip r p.1 p.2 c h2 h7
      have ha3 := blocks_after_target tip rest (r + 3) 2 c
      have ha4 := blocks_after_target tip rest (r + 4) 1 c
      rw [show r + 3 + 2 + 1 = r + 6 from by omega] at ha3
      rw [show r + 4 + 1 + 1 = r + 6 from by omega] at ha4
      exact ⟨by rw [hw3, ha3.1, List.append_nil],
        by rw [hw4, ha4.1, List.append_nil],
        by rw [hv3, ha3.2.1, List.append_nil],
        by rw [hm3, ha3.2.2]; rfl, by rw [hm4, ha4.2.2]; rfl⟩
    | succ j =>
      rw [show r + (6 * (j + 1) + 3) = r + 6 + (6 * j + 3) from by omega,
        show r + (6 * (j + 1) + 4) = r + 6 + (6 * j + 4) from by omega,
        writesAt_append, writesAt_append, validationsAt_append,
        mergesAt_append, mergesAt_append]
      obtain ⟨hb3w, hb3v, hb3m⟩ := shotBlock_after_target tip p.1 p.2 r (6 * j + 3) c
      obtain ⟨hb4w, hb4v, hb4m⟩ := shotBlock_after_target tip p.1 p.2 r (6 * j + 4) c
      obtain ⟨hw3, hw4, hv3, hm3, hm4⟩ :=
        ih j (r + 6) c (Nat.lt_of_succ_lt_succ hi) h2 h7
      exact ⟨by rw [hb3w, hw3]; rfl, by rw [hb4w, hw4]; rfl,
        by rw [hb3v, hv3]; rfl, by rw [hb3m, hm3]; rfl, by rw [hb4m, hm4]; rfl⟩

theorem worksheet_status_cells (tip : String) (dict : List (String × List String))
    (seqName : String) (i c : Nat) (hi : i < dict.length)
    (h2 : 2 ≤ c) (h7 : c ≤ 7) :
    writesAt (worksheetOps tip dict seqName) (6 * i + 4) c = ["Not Started"]
    ∧ writesAt (worksheetOps tip dict seqName) (6 * i + 5) c = [""]
    ∧ validationsAt (worksheetOps tip dict seqName) (6 * i + 4) c = [statusOptions]
    ∧ mergesAt (worksheetOps tip dict seqName) (6 * i + 4) c = []
    ∧ mergesAt (worksheetOps tip dict seqName) (6 * i + 5) c = [] := by
  unfold worksheetOps
  rw [show (6 * i + 4 : Nat) = 1 + (6 * i + 3) from by omega,
    show (6 * i + 5 : Nat) = 1 + (6 * i + 4) from by omega,
    writesAt_append, writesAt_append, writesAt_append, writesAt_append,
    validationsAt_append, validationsAt_append,
    mergesAt_append, mergesAt_append, mergesAt_append, mergesAt_append]
  obtain ⟨hw3, hw4, hv3, hm3, hm4⟩ := blocks_status_cells tip dict i 1 c hi h2 h7
  have hh3 : writesAt headerOps (1 + (6 * i + 3)) c = [] ∧
      validationsAt headerOps (1 + (6 * i + 3)) c = [] ∧
      mergesAt headerOps (1 + (6 * i + 3)) c = [] := by
    refine ⟨?_, ?_, ?_⟩ <;> simp_arith [headerOps, writesAt, validationsAt, mergesAt]
  have hh4 : writesAt headerOps (1 + (6 * i + 4)) c = [] ∧
      mergesAt headerOps (1 + (6 * i + 4)) c = [] := by
    refine ⟨?_, ?_⟩ <;> simp_arith [headerOps, writesAt, mergesAt]
  have ht3 : writesAt [WsOp.mergeRange 0 0 0 7 seqName ("title_format")]
        (1 + (6 * i + 3)) c = [] ∧
      validationsAt [WsOp.mergeRange 0 0 0 7 seqName ("title_format")]
        (1 + (6 * i + 3)) c = [] ∧
      mergesAt [WsOp.mergeRange 0 0 0 7 seqName ("title_format")]
        (1 + (6 * i + 3)) c = [] := by
    refine ⟨?_, ?_, ?_⟩ <;> simp_arith [writesAt, validationsAt, mergesAt]
  have ht4 : writesAt [WsOp.mergeRange 0 0 0 7 seqName ("title_format")]
        (1 + (6 * i + 4)) c = [] ∧
      mergesAt [WsOp.mergeRange 0 0 0 7 seqName ("title_format")]
        (1 + (6 * i + 4)) c = [] := by
    refine ⟨?_, ?_⟩ <;> simp_arith [writesAt, mergesAt]
  refine ⟨?_, ?_, ?_, ?_, ?_⟩
  · rw [hh3.1, hw3, ht3.1]; rfl
  · rw [hh4.1, hw4, ht4.1]; rfl
  · rw [hh3.2.1, hv3, ht3.2.1]; rfl
  · rw [hh3.2.2, hm3, ht3.2.2]; rfl
  · rw [hh4.2, hm4, ht4.2]; rfl

/-! ## Helper lemmas: the drawing XML patch -/

theorem attrLookup_setAttr_self (a : List (String × String)) (k v : String) :
    attrLookup (setAttr a k v) k = some v :=
  lookupAssoc_updAssoc_self a k v

theorem attrLookup_setAttr_other (a : List (String × String)) (k k' v : String)
    (h : k' ≠ k) : attrLookup (setAttr a k v) k' = attrLookup a k' :=
  lookupAssoc_updAssoc_other a k k' v h

theorem anchorTags_ne : twoCellAnchorTag ≠ oneCellAnchorTag := by decide

/-- One description of both anchor passes of modify_drawing_xml: the root
keeps its tag and attributes, and each direct child is patched exactly when
its tag is one of the two anchor tags. -/
theorem modifyDrawingXml_node (tag : String) (attrs : List (String × String))
    (cs : List XElem) :
    modifyDrawingXml (XElem.node tag attrs cs) =
      XElem.node tag attrs (cs.map patchAnchor) := by
  unfold modifyDrawingXml
  rw [show setEditAsOnTag twoCellAnchorTag (XElem.node tag attrs cs) =
      XElem.node tag attrs (cs.map (fun c =>
        match c with
        | XElem.node ct ca cc =>
          if ct = twoCellAnchorTag then
            XElem.node ct (setAttr ca ("editAs") "twoCell") cc
          else XElem.node ct ca cc)) from rfl]
  rw [show ∀ cs2, setEditAsOnTag oneCellAnchorTag (XElem.node tag attrs cs2) =
      XElem.node tag attrs (cs2.map (fun c =>
        match c with
        | XElem.node ct ca cc =>
          if ct = oneCellAnchorTag then
            XElem.node ct (setAttr ca ("editAs") "twoCell") cc
          else XElem.node ct ca cc)) from fun _ => rfl]
  rw [List.map_map]
  congr 1
  apply List.map_congr_left
  intro c _
  cases c with
  | node ct ca cc =>
    by_cases h2 : ct = twoCellAnchorTag
    · have h1 : ¬ (ct = oneCellAnchorTag) := by
        rw [h2]; exact anchorTags_ne
      simp only [patchAnchor, Function.comp_apply, XElem.tag, XElem.attrs,
        XElem.children, if_pos h2, if_neg h1, if_pos (Or.inl h2)]
    · by_cases h1 : ct = oneCellAnchorTag
      · simp only [patchAnchor, Function.comp_apply, XElem.tag, XElem.attrs,
          XElem.children, if_neg h2, if_pos h1, if_pos (Or.inr h1)]
      · simp only [patchAnchor, Function.comp_apply, XElem.tag, XElem.attrs,
          XElem.children, if_neg h2, if_neg h1,
          if_neg (fun h : ct = twoCellAnchorTag ∨ ct = oneCellAnchorTag =>
            h.elim h2 h1)]

/-! ## Helper lemmas: the run event trace -/

theorem tempStep_false (evs : List Event) :
    evs.foldl (fun t e => match e with | Event.tempDeleted => false | _ => t)
      false = false := by
  induction evs with
  | nil => rfl
  | cons e rest ih => cases e <;> exact ih

theorem tempAfter_confirmed (fails : String → Bool) (reveal : Bool)
    (sel : List Sequence) :
    tempAfter (createShotSheetsEvents fails reveal sel) = false := by
  unfold tempAfter createShotSheetsEvents
  rw [List.foldl_append, List.foldl_append]
  exact tempStep_false _

theorem run_suffix_events (fails : String → Bool) (reveal : Bool)
    (sel : List Sequence) (j : Nat) (e : Event)
    (hj : (processEvents fails sel).length ≤ j)
    (he : (createShotSheetsEvents fails reveal sel)[j]? = some e) :
    e = Event.tempDeleted ∨ e = Event.windowClosed ∨
      e = Event.completionDialog ∨ e = Event.revealedInFinder := by
  unfold createShotSheetsEvents at he
  rw [List.append_assoc, List.getElem?_append_right hj] at he
  have hmem := List.getElem?_mem he
  rcases List.mem_append.mp hmem with hl | hr
  · simp only [List.mem_cons, List.not_mem_nil, or_false] at hl
    rcases hl with rfl | rfl | rfl
    · exact Or.inl rfl
    · exact Or.inr (Or.inl rfl)
    · exact Or.inr (Or.inr (Or.inl rfl))
  · by_cases hrv : reveal
    · rw [if_pos hrv] at hr
      simp only [List.mem_singleton] at hr
      exact Or.inr (Or.inr (Or.inr hr))
    · rw [if_neg hrv] at hr
      exact absurd hr (List.not_mem_nil e)

/-! ## The claims -/

/-- Claim C1: for every selection of sequences that passes validation (in
particular, pairwise distinct sequence names), create_shot_sheets creates
exactly one workbook per selected sequence, named sequence-name.xlsx in the
export path, and each workbook holds exactly one worksheet (the single
shot grouping of that sequence), named after the sequence. -/
theorem claim_C1_workbook_per_sequence (exportPath tempPath : String)
    (sel : List Sequence) (h : (sel.map Sequence.name).Nodup) :
    ((createShotSheets exportPath tempPath sel).map Workbook.path).Perm
      (sel.map (fun s => exportPath ++ "/" ++ s.name ++ ".xlsx"))
    ∧ ∀ wb ∈ createShotSheets exportPath tempPath sel,
        ∃ s, s ∈ sel ∧ wb.path = exportPath ++ "/" ++ s.name ++ ".xlsx"
          ∧ wb.worksheets.length = 1
          ∧ wb.worksheets.map Worksheet.wsName = [s.name] := by
  constructor
  · have h1 : (createShotSheets exportPath tempPath sel).map Workbook.path =
        (sortedSequences sel).map
          (fun s => exportPath ++ "/" ++ s.name ++ ".xlsx") := by
      unfold createShotSheets
      rw [List.map_map]
      rfl
    rw [h1]
    exact (sortedSequences_perm sel h).map _
  · intro wb hwb
    unfold createShotSheets at hwb
    rcases List.mem_map.mp hwb with ⟨s, hs, rfl⟩
    exact ⟨s, sortedSequences_sub sel s hs, rfl, rfl, rfl⟩

/-- Witness for C1 at a concrete two-sequence selection. -/
theorem claim_C1_workbook_per_sequence_witness :
    (([seqB0, seqA0].map Sequence.name).Nodup)
    ∧ ((createShotSheets ("/exp") "/tmp" [seqB0, seqA0]).map Workbook.path).Perm
        ([seqB0, seqA0].map (fun s => "/exp" ++ "/" ++ s.name ++ ".xlsx")) :=
  ⟨by decide,
   (claim_C1_workbook_per_sequence ("/exp") "/tmp" [seqB0, seqA0] (by decide)).1⟩

/-- Claim C2: for every selection with pairwise distinct sequence names,
the per-sequence loop of create_shot_sheets walks sortedSequences, whose
names are in ascending lexicographic (code point) order and which is a
permutation of the selection: every selected sequence is processed exactly
once. -/
theorem claim_C2_sorted_order (sel : List Sequence)
    (h : (sel.map Sequence.name).Nodup) :
    List.Sorted strLeR ((sortedSequences sel).map Sequence.name)
    ∧ (sortedSequences sel).Perm sel :=
  ⟨sortedSequences_sorted sel h, sortedSequences_perm sel h⟩

/-- Witness for C2 at a concrete two-sequence selection. -/
theorem claim_C2_sorted_order_witness :
    (([seqB0, seqA0].map Sequence.name).Nodup)
    ∧ List.Sorted strLeR ((sortedSequences [seqB0, seqA0]).map Sequence.name)
    ∧ (sortedSequences [seqB0, seqA0]).Perm [seqB0, seqA0] :=
  ⟨by decide,
   (claim_C2_sorted_order [seqB0, seqA0] (by decide)).1,
   (claim_C2_sorted_order [seqB0, seqA0] (by decide)).2⟩

/-- Claim C3: the xlsx post-patch keeps every archive member at its path,
leaves every non-drawing member untouched, rewrites every
xl/drawings/drawing*.xml member by modify_drawing_xml, and
modify_drawing_xml only maps patchAnchor over the top-level elements:
every top-level twoCellAnchor and oneCellAnchor gets editAs set to
twoCell, its tag, children and other attributes unchanged, and every other
element round-trips unchanged. -/
theorem claim_C3_xlsx_patch (archive : List (String × Member)) (p : String)
    (m : Member) (hmem : (p, m) ∈ archive) :
    (editXlsxFile archive).length = archive.length
    ∧ (isDrawingPath p = false → (p, m) ∈ editXlsxFile archive)
    ∧ (∀ root, isDrawingPath p = true → m = Member.xml root →
        (p, Member.xml (modifyDrawingXml root)) ∈ editXlsxFile archive)
    ∧ (∀ tag attrs cs, modifyDrawingXml (XElem.node tag attrs cs) =
        XElem.node tag attrs (cs.map patchAnchor))
    ∧ (∀ c : XElem, (patchAnchor c).tag = c.tag ∧
        (patchAnchor c).children = c.children)
    ∧ (∀ c : XElem, c.tag = twoCellAnchorTag ∨ c.tag = oneCellAnchorTag →
        attrLookup (patchAnchor c).attrs ("editAs") = some ("twoCell")
        ∧ ∀ k, k ≠ "editAs" →
            attrLookup (patchAnchor c).attrs k = attrLookup c.attrs k)
    ∧ (∀ c : XElem, ¬ (c.tag = twoCellAnchorTag ∨ c.tag = oneCellAnchorTag) →
        patchAnchor c = c) := by
  refine ⟨List.length_map archive _, ?_, ?_, modifyDrawingXml_node, ?_, ?_, ?_⟩
  · intro h
    unfold editXlsxFile
    have h2 := List.mem_map_of_mem
      (fun pm : String × Member =>
        if isDrawingPath pm.1 then (pm.1, patchMember pm.2) else pm) hmem
    simpa [h] using h2
  · intro root h hx
    subst hx
    unfold editXlsxFile
    have h2 := List.mem_map_of_mem
      (fun pm : String × Member =>
        if isDrawingPath pm.1 then (pm.1, patchMember pm.2) else pm) hmem
    simpa [h, patchMember] using h2
  · intro c
    unfold patchAnchor
    by_cases hc : c.tag = twoCellAnchorTag ∨ c.tag = oneCellAnchorTag
    · rw [if_pos hc]
      exact ⟨rfl, rfl⟩
    · rw [if_neg hc]
      exact ⟨rfl, rfl⟩
  · intro c hc
    unfold patchAnchor
    rw [if_pos hc]
    exact ⟨attrLookup_setAttr_self c.attrs ("editAs") "twoCell",
      fun k hk => attrLookup_setAttr_other c.attrs ("editAs") k ("twoCell") hk⟩
  · intro c hc
    unfold patchAnchor
    rw [if_neg hc]

/-- Witness for C3 at a concrete two-member archive. -/
theorem claim_C3_xlsx_patch_witness :
    ("xl/drawings/drawing1.xml",
      Member.xml (XElem.node (xdrNS ++ "wsDr") []
        [XElem.node twoCellAnchorTag [("editAs", "oneCell")] [],
         XElem.node (xdrNS ++ "absoluteAnchor") [] []])) ∈ cArchive
    ∧ (editXlsxFile cArchive).length = cArchive.length :=
  ⟨List.mem_cons_self _ _,
   (claim_C3_xlsx_patch cArchive _ _ (List.mem_cons_self _ _)).1⟩

/-- Claim C4 counterexample: the confirm handler writes only export_path
to the config file; thumbnail_size (and the toggles) are not among the
persisted keys, refuting the claim that every setting is written. -/
theorem claim_C4_counterexample :
    ¬ (∀ k, k ∈ ["export_path", "thumbnail_size", "one_workbook",
          "reveal_in_finder", "save_images"] →
        k ∈ (confirmSaveConfig ("/opt/Autodesk")).map Prod.fst) := by
  decide

/-- Claim C4 as amended: after the user confirms the main window, the
config write persists exactly the export path (the value of the export
path entry); thumbnail_size, one_workbook, reveal_in_finder and
save_images are not written. -/
theorem claim_C4_only_export_path_saved (entryText : String) :
    (confirmSaveConfig entryText).map Prod.fst = ["export_path"]
    ∧ lookupAssoc (confirmSaveConfig entryText) "export_path" = some entryText :=
  ⟨rfl, rfl⟩

/-- Claim C5: if creating the workbook for one sequence raises, the error
dialog for it is shown and the run continues: every other sequence that
does not raise still gets its workbook, and the temp-directory cleanup and
the completion dialog still happen. -/
theorem claim_C5_error_continue (fails : String → Bool) (reveal : Bool)
    (sel : List Sequence) (s : Sequence) (hs : s ∈ sel)
    (hf : fails s.name = true) :
    Event.errorDialog s.name ∈ appRun true fails reveal sel
    ∧ (∀ t, t ∈ sel → fails t.name = false →
        Event.workbookCreated t.name ∈ appRun true fails reveal sel)
    ∧ Event.tempDeleted ∈ appRun true fails reveal sel
    ∧ Event.completionDialog ∈ appRun true fails reveal sel := by
  have hrun : appRun true fails reveal sel =
      createShotSheetsEvents fails reveal sel := rfl
  refine ⟨?_, ?_, ?_, ?_⟩
  · rw [hrun]
    unfold createShotSheetsEvents
    apply List.mem_append_left
    apply List.mem_append_left
    have h2 := List.mem_map_of_mem
      (fun t : Sequence => if fails t.name then Event.errorDialog t.name
        else Event.workbookCreated t.name)
      (mem_sortedSequences sel s hs)
    simpa [processEvents, hf] using h2
  · intro t ht hft
    rw [hrun]
    unfold createShotSheetsEvents
    apply List.mem_append_left
    apply List.mem_append_left
    have h2 := List.mem_map_of_mem
      (fun u : Sequence => if fails u.name then Event.errorDialog u.name
        else Event.workbookCreated u.name)
      (mem_sortedSequences sel t ht)
    simpa [processEvents, hft] using h2
  · rw [hrun]
    unfold createShotSheetsEvents
    apply List.mem_append_left
    apply List.mem_append_right
    exact List.mem_cons_self _ _
  · rw [hrun]
    unfold createShotSheetsEvents
    apply List.mem_append_left
    apply List.mem_append_right
    simp

/-- Witness for C5: the beta sequence raises, alpha still gets its
workbook, and the error dialog appears. -/
theorem claim_C5_error_continue_witness :
    seqB0 ∈ [seqA0, seqB0] ∧ cFails seqB0.name = true
    ∧ Event.errorDialog seqB0.name ∈ appRun true cFails false [seqA0, seqB0]
    ∧ Event.workbookCreated seqA0.name ∈ appRun true cFails false [seqA0, seqB0]
    ∧ Event.completionDialog ∈ appRun true cFails false [seqA0, seqB0] := by
  have h := claim_C5_error_continue cFails false [seqA0, seqB0] seqB0
    (by decide) (by decide)
  exact ⟨by decide, by decide, h.1, h.2.1 seqA0 (by decide) (by decide), h.2.2.2⟩

/-- Claim C6: in the worksheet of a sequence, shot row-block i (0-based)
occupies rows 6i+1 .. 6i+6, its status row is 6i+4 and its artist row is
6i+5.  For every block and every status cell (columns C through H, indices
2 through 7), the cell carries exactly one list data-validation dropdown
whose source is exactly the six statuses, is written exactly once, with
the default value Not Started, and the artist cell below it is written
exactly once, empty; no merge range covers either cell, so both stay plain
editable cells. -/
theorem claim_C6_status_dropdowns (tip seqName : String)
    (dict : List (String × List String)) (i c : Nat)
    (hi : i < dict.length) (h2 : 2 ≤ c) (h7 : c ≤ 7) :
    validationsAt (worksheetOps tip dict seqName) (6 * i + 4) c =
      [["Not Started", "In Progress", "Review", "Internally Approved",
        "Client Approved", "On Hold"]]
    ∧ writesAt (worksheetOps tip dict seqName) (6 * i + 4) c = ["Not Started"]
    ∧ writesAt (worksheetOps tip dict seqName) (6 * i + 5) c = [""]
    ∧ mergesAt (worksheetOps tip dict seqName) (6 * i + 4) c = []
    ∧ mergesAt (worksheetOps tip dict seqName) (6 * i + 5) c = [] := by
  obtain ⟨hw3, hw4, hv, hm3, hm4⟩ :=
    worksheet_status_cells tip dict seqName i c hi h2 h7
  exact ⟨hv, hw3, hw4, hm3, hm4⟩

/-- Witness for C6 at a one-shot dictionary, block 0, column C. -/
theorem claim_C6_status_dropdowns_witness :
    0 < cDict.length ∧ 2 ≤ 2 ∧ (2 : Nat) ≤ 7
    ∧ writesAt (worksheetOps ("/tmp/alpha") cDict ("alpha")) 4 2 = ["Not Started"]
    ∧ validationsAt (worksheetOps ("/tmp/alpha") cDict ("alpha")) 4 2 =
        [["Not Started", "In Progress", "Review", "Internally Approved",
          "Client Approved", "On Hold"]] :=
  ⟨by decide, by decide, by decide,
   (claim_C6_status_dropdowns ("/tmp/alpha") "alpha" cDict 0 2
     (by decide) (by decide) (by decide)).2.1,
   (claim_C6_status_dropdowns ("/tmp/alpha") "alpha" cDict 0 2
     (by decide) (by decide) (by decide)).1⟩

/-- Claim C7: export_thumbnail sets the sequence in and out marks to the
segment record-in frame and record-in + 1, exports with exactly those
marks, then resets both marks to None; the name, size and segments of the
sequence are untouched. -/
theorem claim_C7_marks_transient (seq : Sequence) (seg : Segment)
    (sn : String) (w h : Nat) :
    (exportThumbnail seq seg sn w h).1.in_mark = none
    ∧ (exportThumbnail seq seg sn w h).1.out_mark = none
    ∧ (exportThumbnail seq seg sn w h).1.name = seq.name
    ∧ (exportThumbnail seq seg sn w h).1.height = seq.height
    ∧ (exportThumbnail seq seg sn w h).1.width = seq.width
    ∧ (exportThumbnail seq seg sn w h).1.segments = seq.segments
    ∧ (exportThumbnail seq seg sn w h).2.in_mark = some seg.record_in
    ∧ (exportThumbnail seq seg sn w h).2.out_mark = some (seg.record_in + 1) :=
  ⟨rfl, rfl, rfl, rfl, rfl, rfl, rfl, rfl⟩

/-- Claim C8 counterexample: a run in which the user cancels the main
window never reaches create_shot_sheets, so the temp directory created at
startup is left behind; the claim that no run leaves the temp directory
behind is false. -/
theorem claim_C8_counterexample :
    ¬ (∀ (confirms : Bool) (fails : String → Bool) (reveal : Bool)
        (sel : List Sequence),
        tempAfter (appRun confirms fails reveal sel) = false) :=
  fun h => absurd (h false (fun _ => false) false [seqA0]) (by decide)

/-- Claim C8 as amended: the temp directory is (re)created at startup; in
every run in which the user confirms, the cleanup deletes it, after all
per-sequence processing (every workbook-created and error-dialog event)
and before the completion dialog; a run in which the user cancels leaves
the temp directory behind until the next startup recreates it. -/
theorem claim_C8_cleanup_order (fails : String → Bool) (reveal : Bool)
    (sel : List Sequence) :
    tempAfter (appRun true fails reveal sel) = false
    ∧ tempAfter (appRun false fails reveal sel) = true
    ∧ ∃ k : Nat,
        (appRun true fails reveal sel)[k]? = some Event.tempDeleted
        ∧ (∀ (j : Nat) (n : String), (appRun true fails reveal sel)[j]? =
            some (Event.workbookCreated n) → j < k)
        ∧ (∀ (j : Nat) (n : String), (appRun true fails reveal sel)[j]? =
            some (Event.errorDialog n) → j < k)
        ∧ ∃ l : Nat, k < l ∧ (appRun true fails reveal sel)[l]? =
            some Event.completionDialog := by
  have hrun : appRun true fails reveal sel =
      createShotSheetsEvents fails reveal sel := rfl
  refine ⟨?_, rfl, ?_⟩
  · rw [hrun]
    exact tempAfter_confirmed fails reveal sel
  · refine ⟨(processEvents fails sel).length, ?_, ?_, ?_, ?_⟩
    · rw [hrun]
      unfold createShotSheetsEvents
      rw [List.append_assoc, List.getElem?_append_right (le_refl _)]
      simp
    · intro j n hj
      by_contra hlt
      push_neg at hlt
      have h4 := run_suffix_events fails reveal sel j _ hlt (hrun ▸ hj)
      rcases h4 with h | h | h | h <;> simp at h
    · intro j n hj
      by_contra hlt
      push_neg at hlt
      have h4 := run_suffix_events fails reveal sel j _ hlt (hrun ▸ hj)
      rcases h4 with h | h | h | h <;> simp at h
    · refine ⟨(processEvents fails sel).length + 2, by omega, ?_⟩
      rw [hrun]
      unfold createShotSheetsEvents
      rw [List.append_assoc, List.getElem?_append_right (by omega),
        show (processEvents fails sel).length + 2 -
          (processEvents fails sel).length = 2 from by omega]
      simp

/-- Witness for C8 as amended: the confirmed run on the concrete selection
ends with the temp directory deleted. -/
theorem claim_C8_cleanup_order_witness :
    tempAfter (appRun true cFails false [seqA0, seqB0]) = false :=
  (claim_C8_cleanup_order cFails false [seqA0, seqB0]).1

/-- Claim C9: shot_dict is keyed by shot name: the keys of the dictionary
built by get_shots are exactly the distinct effective shot names of the
video segments, without duplicates; the entry of a name is the clip info
of the last video segment carrying that name (a later segment overwrites
an earlier one); and the worksheet writes one shot row-block (counted by
its unique Task: label write) per dictionary entry, hence one per distinct
shot name rather than one per segment. -/
theorem claim_C9_last_segment_wins (segs : List Segment)
    (tip seqName : String) :
    ((getShots segs).1.map Prod.fst).Nodup
    ∧ (∀ n, n ∈ (getShots segs).1.map Prod.fst ↔
        ∃ s, s ∈ segs ∧ s.segType = "Video Segment" ∧ effectiveShotName s = n)
    ∧ (∀ n, odLookup (getShots segs).1 n =
        ((segs.filter (fun s => hitsName n s)).getLast?).map
          (fun s => clipInfoList n s))
    ∧ countTaskWrites (worksheetOps tip (getShots segs).1 seqName) =
        (getShots segs).1.length := by
  refine ⟨getShotsAux_keys_nodup segs [] [] (by simp), ?_, ?_, ?_⟩
  · intro n
    have h := getShotsAux_keys_mem segs [] [] n
    simpa using h
  · intro n
    exact getShots_lookup segs n
  · exact countTaskWrites_worksheet tip (getShots segs).1 seqName

/-- Witness for C9: two video segments share the shot name shot_010; the
dictionary has the single key and maps it to the later segment's clip
info, and the worksheet has exactly one row-block. -/
theorem claim_C9_last_segment_wins_witness :
    odLookup (getShots [segA0, segD0]).1 "shot_010" =
      (([segA0, segD0].filter (fun s => hitsName ("shot_010") s)).getLast?).map
        (fun s => clipInfoList ("shot_010") s)
    ∧ countTaskWrites (worksheetOps ("/t") (getShots [segA0, segD0]).1 ("alpha")) =
        (getShots [segA0, segD0]).1.length
    ∧ odLookup (getShots [segA0, segD0]).1 "shot_010" =
        some (clipInfoList ("shot_010") segD0) :=
  ⟨(claim_C9_last_segment_wins [segA0, segD0] ("/t") "alpha").2.2.1 "shot_010",
   (claim_C9_last_segment_wins [segA0, segD0] ("/t") "alpha").2.2.2,
   by decide⟩

/-- Claim C10: the thumbnails exported by get_shots are, in order, one per
video segment, named after the segment's effective shot name (its
shot_name attribute, or its name when shot_name is empty); when shot_name
is empty the segment name is also the dictionary key and appears in the
Shot Name clip-info entry; segments whose type is not Video Segment are
skipped entirely (they contribute neither a thumbnail nor a dictionary
entry). -/
theorem claim_C10_fallback_name (segs : List Segment) :
    (getShots segs).2 =
      (segs.filter (fun s => s.segType = "Video Segment")).map
        (fun s => effectiveShotName s ++ ".jpg")
    ∧ (∀ seg : Segment, seg.shot_name = "" → effectiveShotName seg = seg.name)
    ∧ (∀ seg, seg ∈ segs → seg.segType = "Video Segment" →
        ∃ ci, odLookup (getShots segs).1 (effectiveShotName seg) = some ci
          ∧ ciEntry ci 0 = "Shot Name: " ++ effectiveShotName seg)
    ∧ getShots segs =
        getShots (segs.filter (fun s => s.segType = "Video Segment")) := by
  refine ⟨?_, ?_, ?_, getShots_skip_nonvideo segs⟩
  · have h := getShotsAux_thumbs segs [] []
    simpa using h
  · intro seg hempty
    unfold effectiveShotName
    rw [if_pos hempty]
  · intro seg hseg hv
    have hmem2 : seg ∈ segs.filter
        (fun s => hitsName (effectiveShotName seg) s) :=
      List.mem_filter.mpr ⟨hseg, decide_eq_true ⟨hv, rfl⟩⟩
    cases hy : (segs.filter
        (fun s => hitsName (effectiveShotName seg) s)).getLast? with
    | none =>
      rw [List.getLast?_eq_none_iff] at hy
      rw [hy] at hmem2
      exact absurd hmem2 (List.not_mem_nil seg)
    | some s2 =>
      refine ⟨clipInfoList (effectiveShotName seg) s2, ?_, rfl⟩
      rw [getShots_lookup, hy]
      rfl

/-- Witness for C10: a video segment with empty shot_name next to an audio
segment; the thumbnail list uses the segment name and the audio segment is
skipped. -/
theorem claim_C10_fallback_name_witness :
    (getShots [segB0, segC0]).2 =
      ([segB0, segC0].filter (fun s => s.segType = "Video Segment")).map
        (fun s => effectiveShotName s ++ ".jpg")
    ∧ (getShots [segB0, segC0]).2 = ["seg_b.jpg"] :=
  ⟨(claim_C10_fallback_name [segB0, segC0]).1, by decide⟩

end SSM
